import Mathlib

/-!
Verification of the process-orchestration and command-protocol layer of the
godot-mcp server (TypeScript sources under src/).  The development shallowly
embeds the relevant functions:

* parameter normalization (OperationExecutor.normalizeParameters and
  OperationExecutor.convertCamelToSnakeCase, src/operation-executor.ts),
* the PARAMETER_MAPPINGS table and its reverse (src/types.ts and the
  OperationExecutor constructor),
* path validation (ProjectUtils.validatePath, src/project-utils.ts),
* the Godot-path validation cache (GodotPathManager.isValidGodotPath,
  src/godot-path.ts),
* the supervised-process lifecycle (ToolHandlers.handleRunProject,
  handleGetDebugOutput, src/tool-handlers.ts),
* the generic dispatch pipeline (ToolHandlers.handleOperationTool) and JSON
  extraction (ToolHandlers.extractJsonFromOutput),
* the parameter-JSON shell quoting of OperationExecutor.executeOperation.

JavaScript objects are modelled as association lists in insertion order with
JS assignment semantics (updating an existing key keeps its position).
External effects (filesystem existence, subprocess execution, JSON.parse) are
modelled as oracle parameters.
-/

set_option maxHeartbeats 1000000
set_option maxRecDepth 10000

/-! ### Character constants (kept symbolic for readability) -/

def squoteChar : Char := Char.ofNat 39

def bslashChar : Char := Char.ofNat 92

def dquoteChar : Char := Char.ofNat 34

def nlChar : Char := Char.ofNat 10

def crChar : Char := Char.ofNat 13

def tabChar : Char := Char.ofNat 9

def spaceChar : Char := Char.ofNat 32

/-! ### JS values and objects

A JS parameter value (OperationParams is an arbitrary string-keyed object).
Objects and arrays are given their own list-like types so that all functions
below are structurally recursive and compute inside the kernel. -/

mutual
/-- A JS value as passed in tool arguments: string, number, boolean, null,
array, or a nested object. -/
inductive JValue where
  | str (s : String)
  | num (n : Int)
  | bool (b : Bool)
  | null
  | arr (xs : JElems)
  | obj (fields : JFields)
deriving DecidableEq

/-- Elements of a JS array value, in order. -/
inductive JElems where
  | nil
  | cons (v : JValue) (rest : JElems)
deriving DecidableEq

/-- Fields of a JS object, in insertion (enumeration) order. -/
inductive JFields where
  | nil
  | cons (k : String) (v : JValue) (rest : JFields)
deriving DecidableEq
end

/-- JS property read obj[key]: the first binding, none models undefined. -/
def JFields.get : JFields → String → Option JValue
  | .nil, _ => none
  | .cons k v rest, key => if k == key then some v else rest.get key

/-- Whether the object has the given own property. -/
def JFields.hasKey : JFields → String → Bool
  | .nil, _ => false
  | .cons k _ rest, key => k == key || rest.hasKey key

/-- Overwrite the value at an existing key, keeping its position. -/
def JFields.setVal : JFields → String → JValue → JFields
  | .nil, _, _ => .nil
  | .cons k v rest, key, newV =>
      if k == key then .cons k newV (rest.setVal key newV)
      else .cons k v (rest.setVal key newV)

/-- Concatenation of field lists. -/
def JFields.append : JFields → JFields → JFields
  | .nil, gs => gs
  | .cons k v rest, gs => .cons k v (rest.append gs)

/-- JS property assignment obj[key] = v: update in place if the key exists,
otherwise append the new binding (insertion order). -/
def JFields.set (fs : JFields) (key : String) (v : JValue) : JFields :=
  if fs.hasKey key then fs.setVal key v else fs.append (.cons key v .nil)

/-- The keys of the object, in enumeration order. -/
def JFields.keys : JFields → List String
  | .nil => []
  | .cons k _ rest => k :: rest.keys

/-- JS truthiness of a value (used by checks such as bang args[param]). -/
def jsTruthy : JValue → Bool
  | .str s => !(s == "")
  | .num n => !(n == 0)
  | .bool b => b
  | .null => false
  | .arr _ => true
  | .obj _ => true

/-- Truthiness of a possibly-absent property: undefined is falsy. -/
def jsFalsyOpt : Option JValue → Bool
  | none => true
  | some v => !(jsTruthy v)

/-! ### Generic JS string-keyed records (Record of string in string, and the
validation cache Map of string to bool) -/

/-- Lookup in a string-keyed record modelled as an association list. -/
def jsGet {α : Type} : List (String × α) → String → Option α
  | [], _ => none
  | kv :: rest, k => if kv.1 == k then some kv.2 else jsGet rest k

/-- Assignment in a string-keyed record: update in place or append. -/
def jsSet {α : Type} (m : List (String × α)) (k : String) (v : α) :
    List (String × α) :=
  if m.any (fun kv => kv.1 == k) then
    m.map (fun kv => if kv.1 == k then (kv.1, v) else kv)
  else m ++ [(k, v)]

/-! ### The parameter-name mapping table (src/types.ts, PARAMETER_MAPPINGS) -/

/-- The static snake_case to camelCase table, in source order. -/
def PARAMETER_MAPPINGS : List (String × String) :=
  [("project_path", "projectPath"),
   ("scene_path", "scenePath"),
   ("root_node_type", "rootNodeType"),
   ("parent_node_path", "parentNodePath"),
   ("node_type", "nodeType"),
   ("node_name", "nodeName"),
   ("texture_path", "texturePath"),
   ("node_path", "nodePath"),
   ("output_path", "outputPath"),
   ("mesh_item_names", "meshItemNames"),
   ("new_path", "newPath"),
   ("file_path", "filePath"),
   ("directory", "directory"),
   ("recursive", "recursive"),
   ("scene", "scene")]

/-- The reverse table, built as in the OperationExecutor constructor by
iterating the entries of PARAMETER_MAPPINGS and assigning
reverse[camelCase] = snakeCase. -/
def reverseParameterMappings : List (String × String) :=
  PARAMETER_MAPPINGS.foldl (fun acc kv => jsSet acc kv.2 kv.1) []

/-- key.includes with an underscore argument, on the character data. -/
def hasUnderscore (k : String) : Bool := k.data.contains '_'

/-- Key normalization of normalizeParameters: a key that contains an
underscore and is present in the table (all table values are nonempty, so JS
truthiness of the lookup is presence) maps to its camelCase form; every other
key is left unchanged. -/
def normalizeKey (k : String) : String :=
  if hasUnderscore k && (jsGet PARAMETER_MAPPINGS k).isSome then
    (jsGet PARAMETER_MAPPINGS k).getD k
  else k

/-- The word-boundary fallback of convertCamelToSnakeCase: every ASCII
uppercase letter is replaced by an underscore followed by its lowercase. -/
def camelFallbackChars : List Char → List Char
  | [] => []
  | c :: rest => (if c.isUpper then ['_', c.toLower] else [c]) ++ camelFallbackChars rest

/-- String form of the word-boundary fallback conversion. -/
def camelFallback (k : String) : String := String.mk (camelFallbackChars k.data)

/-- Key conversion of convertCamelToSnakeCase:
reverseParameterMappings[key] or-else the algorithmic fallback (all reverse
values are nonempty strings, so JS truthiness of the lookup is presence). -/
def snakeKeyOf (k : String) : String :=
  match jsGet reverseParameterMappings k with
  | some s => s
  | none => camelFallback k

/-! ### normalizeParameters and convertCamelToSnakeCase
(src/operation-executor.ts lines 37-63 and 68-86)

Both walk the object fields in enumeration order, building the result with JS
assignment, and recurse only into values that are non-null non-array objects;
all other values (including arrays) are copied verbatim, which the catch-all
cases below reproduce.  The top-level guard of normalizeParameters returns
non-object input unchanged. -/

mutual
/-- OperationExecutor.normalizeParameters: normalize keys to camelCase. -/
def normalizeParameters : JValue → JValue
  | JValue.obj fields => JValue.obj (normalizeFields fields JFields.nil)
  | v => v

/-- The field loop of normalizeParameters with its result accumulator. -/
def normalizeFields : JFields → JFields → JFields
  | JFields.nil, acc => acc
  | JFields.cons k v rest, acc =>
      normalizeFields rest (acc.set (normalizeKey k) (normalizeParameters v))
end

mutual
/-- OperationExecutor.convertCamelToSnakeCase: convert keys to snake_case
using the reverse table with the algorithmic fallback.  The source function is
only ever applied to objects; on them this model is exact. -/
def convertCamelToSnakeCase : JValue → JValue
  | JValue.obj fields => JValue.obj (convertFields fields JFields.nil)
  | v => v

/-- The field loop of convertCamelToSnakeCase with its result accumulator. -/
def convertFields : JFields → JFields → JFields
  | JFields.nil, acc => acc
  | JFields.cons k v rest, acc =>
      convertFields rest (acc.set (snakeKeyOf k) (convertCamelToSnakeCase v))
end

/-! ### Path validation (ProjectUtils.validatePath, src/project-utils.ts 22-30)

The source rejects a falsy path (the empty string) and any path whose text
contains ".." anywhere, and accepts everything else. -/

/-- Whether pat occurs as a contiguous subsequence (String.includes). -/
def containsSeq (pat : List Char) : List Char → Bool
  | [] => pat.isEmpty
  | c :: rest => pat.isPrefixOf (c :: rest) || containsSeq pat rest

/-- The two-dot traversal token. -/
def dotdot : List Char := ['.', '.']

/-- ProjectUtils.validatePath. -/
def validatePath (p : String) : Bool :=
  !(p == "") && !(containsSeq dotdot p.data)

/-- Split a path on both separators (forward and backward slash); used only
to state what a parent-directory segment is, not by the source. -/
def splitSeps : List Char → List (List Char)
  | [] => [[]]
  | c :: rest =>
      if c == '/' || c == bslashChar then [] :: splitSeps rest
      else
        match splitSeps rest with
        | [] => [[c]]
        | s :: ss => (c :: s) :: ss

/-- Whether some path segment (under either separator) is exactly "..". -/
def hasParentSegment (p : String) : Bool :=
  (splitSeps p.data).any (fun s => s == dotdot)

/-! ### The Godot-path validation cache
(GodotPathManager.isValidGodotPath, src/godot-path.ts 223-251)

The filesystem existence test and the subprocess version probe are external
effects, passed as oracles.  The result records the boolean outcome, the
updated validatedPaths cache, and how many times the underlying
existence/subprocess check body ran (0 on a cache hit, 1 on a miss). -/

/-- GodotPathManager.isValidGodotPath as a function of the oracles for
existsSync and for successful execution of the version probe. -/
def isValidGodotPath (fsExists runsOk : String → Bool) (path : String)
    (validatedPaths : List (String × Bool)) :
    Bool × List (String × Bool) × Nat :=
  match jsGet validatedPaths path with
  | some b => (b, validatedPaths, 0)
  | none =>
      let r := if path != "godot" && !(fsExists path) then false else runsOk path
      (r, jsSet validatedPaths path r, 1)

/-! ### Supervised process lifecycle
(ToolHandlers.handleRunProject 218-265, handleGetDebugOutput 291-317,
src/tool-handlers.ts)

The handler state holds the single activeProcess slot.  Each spawned process
owns growing output and error line buffers (the closures over output and
errors in handleRunProject); buffers are indexed by process id.  killed
records every process on which process.kill() has been called. -/

/-- The output and errors arrays owned by one spawned Godot process. -/
structure ProcBuf where
  output : List String
  errors : List String
deriving DecidableEq

/-- The ToolHandlers process state: per-process buffers, the single
activeProcess slot, the set of killed processes, and a fresh-pid counter. -/
structure OrchState where
  bufs : Nat → ProcBuf
  active : Option Nat
  killed : List Nat
  nextPid : Nat

/-- The successful path of handleRunProject after validation: kill any existing
active process, spawn a fresh process with empty buffers, and record it as the
active process. -/
def runProject (s : OrchState) : OrchState :=
  { bufs := fun p => if p = s.nextPid then ⟨[], []⟩ else s.bufs p
    active := some s.nextPid
    killed := match s.active with
              | some q => q :: s.killed
              | none => s.killed
    nextPid := s.nextPid + 1 }

/-- Asynchronous events delivered to the handler: a stdout line, a stderr
line, or an exit notification for a process. -/
inductive IOEvent where
  | stdout (pid : Nat) (line : String)
  | stderr (pid : Nat) (line : String)
  | exited (pid : Nat)
deriving DecidableEq

/-- Apply one event: data events append to the owning process buffers
(whether or not that process is still the active one); an exit notification
clears the active slot only if it still refers to the exiting process. -/
def applyEvent (s : OrchState) : IOEvent → OrchState
  | .stdout pid line =>
      { s with bufs := fun p =>
          if p = pid then ⟨(s.bufs pid).output ++ [line], (s.bufs pid).errors⟩
          else s.bufs p }
  | .stderr pid line =>
      { s with bufs := fun p =>
          if p = pid then ⟨(s.bufs pid).output, (s.bufs pid).errors ++ [line]⟩
          else s.bufs p }
  | .exited pid => if s.active = some pid then { s with active := none } else s

/-- Apply a sequence of events in order. -/
def applyEvents (s : OrchState) : List IOEvent → OrchState
  | [] => s
  | e :: rest => applyEvents (applyEvent s e) rest

/-- handleGetDebugOutput: the buffers of the active process, or none (the
"No active Godot process" error) when the slot is empty. -/
def getOutput (s : OrchState) : Option ProcBuf := s.active.map s.bufs

/-- The stdout lines a list of events delivers to the given process. -/
def outLinesFor (pid : Nat) : List IOEvent → List String
  | [] => []
  | .stdout p l :: rest => (if p = pid then [l] else []) ++ outLinesFor pid rest
  | _ :: rest => outLinesFor pid rest

/-- The stderr lines a list of events delivers to the given process. -/
def errLinesFor (pid : Nat) : List IOEvent → List String
  | [] => []
  | .stderr p l :: rest => (if p = pid then [l] else []) ++ errLinesFor pid rest
  | _ :: rest => errLinesFor pid rest

/-! ### Generic dispatch (ToolHandlers.handleOperationTool, src/tool-handlers.ts
709-754), modelled up to the subprocess invocation

The pipeline normalizes the arguments, reports missing required parameters,
validates every string argument whose key mentions "path", checks the project
marker through the projectValid oracle (existsSync of project.godot), and
otherwise strips projectPath from the arguments and hands the rest to
OperationExecutor.executeOperation.  The outcome constructor runOp carries
exactly what would be passed to executeOperation; every err constructor is an
early return that performs no subprocess invocation. -/

/-- The observable outcome of a dispatch, up to the subprocess call. -/
inductive DispatchOutcome where
  | errMissing (names : List String)
  | errInvalidPath
  | errNotProject
  | runOp (operation : String) (params : JFields) (projectPath : Option JValue)
deriving DecidableEq

/-- ASCII lowercasing of a key (String.toLowerCase). -/
def lowerKey (k : String) : String := String.mk (k.data.map Char.toLower)

/-- param.toLowerCase().includes with the text path. -/
def mentionsPath (k : String) : Bool := containsSeq "path".data (lowerKey k).data

/-- Remove the projectPath binding, as the rest-destructuring of args into
projectPath and the remaining params does. -/
def eraseProjectPath : JFields → JFields
  | .nil => .nil
  | .cons k v rest =>
      if k == "projectPath" then eraseProjectPath rest
      else .cons k v (eraseProjectPath rest)

/-- ToolHandlers.handleOperationTool up to the executeOperation call. -/
def handleOperationTool (projectValid : JValue → Bool) (operation : String)
    (rawArgs : JFields) (requiredParams : List String) : DispatchOutcome :=
  let args := normalizeFields rawArgs JFields.nil
  let missing := requiredParams.filter (fun r => jsFalsyOpt (args.get r))
  if missing = [] then
    let pathParams := args.keys.filter mentionsPath
    let invalid := pathParams.filter (fun k =>
      match args.get k with
      | some (JValue.str s) => !(validatePath s)
      | _ => false)
    if invalid = [] then
      match args.get "projectPath" with
      | some pp =>
          if jsTruthy pp && !(projectValid pp) then DispatchOutcome.errNotProject
          else DispatchOutcome.runOp operation (eraseProjectPath args) (some pp)
      | none => DispatchOutcome.runOp operation (eraseProjectPath args) none
    else DispatchOutcome.errInvalidPath
  else DispatchOutcome.errMissing missing

/-- Whether an outcome reaches the subprocess invocation. -/
def subprocessInvoked : DispatchOutcome → Bool
  | .runOp _ _ _ => true
  | _ => false

/-! ### JSON extraction (ToolHandlers.extractJsonFromOutput, src/tool-handlers.ts
71-92)

The captured stdout is trimmed, split into lines, each line trimmed, empty
lines dropped, and the remaining lines are scanned from the last one backward
for the first that JSON.parse accepts.  JSON.parse is an external effect and
is passed as an oracle.  The two raised errors are distinct from each other
and from the execution-failure classification (the stderr failure marker). -/

/-- Whitespace removed by String.trim (the forms relevant to process text). -/
def jsWhitespace (c : Char) : Bool :=
  c == spaceChar || c == tabChar || c == nlChar || c == crChar

/-- String.trim on character data. -/
def trimChars (cs : List Char) : List Char :=
  ((cs.dropWhile jsWhitespace).reverse.dropWhile jsWhitespace).reverse

/-- String.trim. -/
def jsTrim (s : String) : String := String.mk (trimChars s.data)

/-- Split on newline characters (the carriage return of a CRLF pair is
removed by the per-line trim that follows, exactly as in the source). -/
def splitNlChars : List Char → List (List Char)
  | [] => [[]]
  | c :: rest =>
      if c == nlChar then [] :: splitNlChars rest
      else
        match splitNlChars rest with
        | [] => [[c]]
        | s :: ss => (c :: s) :: ss

/-- trimmed.split, then map trim, then filter nonempty. -/
def cleanLinesOf (t : String) : List String :=
  ((splitNlChars t.data).map (fun cs => String.mk (trimChars cs))).filter
    (fun l => !(l == ""))

/-- The line list extractJsonFromOutput scans. -/
def cleanLines (output : String) : List String := cleanLinesOf (jsTrim output)

/-- The two errors extractJsonFromOutput can raise. -/
inductive ExtractErr where
  | noContent
  | unparsable
deriving DecidableEq

/-- Result of the extraction: a parsed value or a raised extraction error. -/
inductive ExtractResult where
  | ok (j : JValue)
  | error (e : ExtractErr)
deriving DecidableEq

/-- The backward scan of the for loop: the last line accepted by the parse
oracle wins. -/
def scanBack (parse : String → Option JValue) : List String → Option JValue
  | [] => none
  | l :: rest =>
      match scanBack parse rest with
      | some j => some j
      | none => parse l

/-- ToolHandlers.extractJsonFromOutput with JSON.parse as an oracle. -/
def extractJsonFromOutput (parse : String → Option JValue) (output : String) :
    ExtractResult :=
  if jsTrim output == "" then ExtractResult.error ExtractErr.noContent
  else
    match scanBack parse (cleanLines output) with
    | some j => ExtractResult.ok j
    | none => ExtractResult.error ExtractErr.unparsable

/-! ### Shell quoting of the parameter JSON
(OperationExecutor.executeOperation, src/operation-executor.ts 114-145)

On a non-Windows host the serialized JSON is wrapped in single quotes after
paramsJson.replace of every single quote by the three characters
quote-backslash-quote.  A POSIX word parser (single quotes quote literally,
backslash escapes the next character outside quotes, double quotes quote with
backslash escapes inside) defines what the target shell reconstructs; none is
an unterminated quotation. -/

/-- The replace call of executeOperation: every single quote becomes the
three characters single quote, backslash, single quote. -/
def escapeSingleQuotes : List Char → List Char
  | [] => []
  | c :: rest =>
      (if c == squoteChar then [squoteChar, bslashChar, squoteChar] else [c])
        ++ escapeSingleQuotes rest

/-- The quoted JSON token executeOperation builds on a non-Windows host. -/
def quotedParamsToken (json : String) : List Char :=
  squoteChar :: escapeSingleQuotes json.data ++ [squoteChar]

/-- The close-quote/backslash-quote/reopen-quote scheme the specification
describes: every single quote becomes the four characters single quote,
backslash, single quote, single quote. -/
def escapeSingleQuotesPosix : List Char → List Char
  | [] => []
  | c :: rest =>
      (if c == squoteChar then [squoteChar, bslashChar, squoteChar, squoteChar]
       else [c]) ++ escapeSingleQuotesPosix rest

/-- The token the close/escape/reopen scheme would build. -/
def quotedParamsTokenPosix (json : String) : List Char :=
  squoteChar :: escapeSingleQuotesPosix json.data ++ [squoteChar]

mutual
/-- POSIX word parsing outside quotes. -/
def shUnquoted : List Char → Option (List Char)
  | [] => some []
  | c :: rest =>
      if c == bslashChar then
        match rest with
        | [] => none
        | d :: rest2 => (shUnquoted rest2).map (fun t => d :: t)
      else if c == squoteChar then shSingle rest
      else if c == dquoteChar then shDouble rest
      else (shUnquoted rest).map (fun t => c :: t)

/-- POSIX word parsing inside a single-quoted region (everything is literal
until the closing quote; end of input is an unterminated quotation). -/
def shSingle : List Char → Option (List Char)
  | [] => none
  | c :: rest =>
      if c == squoteChar then shUnquoted rest
      else (shSingle rest).map (fun t => c :: t)

/-- POSIX word parsing inside a double-quoted region. -/
def shDouble : List Char → Option (List Char)
  | [] => none
  | c :: rest =>
      if c == dquoteChar then shUnquoted rest
      else if c == bslashChar then
        match rest with
        | [] => none
        | d :: rest2 =>
            if d == dquoteChar || d == bslashChar then
              (shDouble rest2).map (fun t => d :: t)
            else (shDouble rest2).map (fun t => c :: d :: t)
      else (shDouble rest).map (fun t => c :: t)
end

/-- A JSON parameter blob with an embedded single quote. -/
def c1Json : String := "\x7b\x22a\x22:\x22it\x27s\x22\x7d"

/-! ### Auxiliary definitions used by the statements below -/

/-- Boolean key distinctness (a real JS object never repeats a key). -/
def nodupKeys : List String → Bool
  | [] => true
  | k :: rest => !(rest.contains k) && nodupKeys rest

mutual
/-- A parameter map whose keys, at every object level, are keys of
PARAMETER_MAPPINGS, with no repeated key inside one object. -/
def goodParams : JValue → Bool
  | JValue.obj fs => nodupKeys fs.keys && goodFields fs
  | _ => true

/-- Field-list form of goodParams. -/
def goodFields : JFields → Bool
  | JFields.nil => true
  | JFields.cons k v rest =>
      (jsGet PARAMETER_MAPPINGS k).isSome && goodParams v && goodFields rest
end

/-- Pointwise form of the normalizeParameters field loop: when no two fields
collide on their normalized key, the accumulator loop reduces to this map. -/
def mapNormalize : JFields → JFields
  | .nil => .nil
  | .cons k v rest => .cons (normalizeKey k) (normalizeParameters v) (mapNormalize rest)

/-- Pointwise form of the convertCamelToSnakeCase field loop. -/
def mapConvert : JFields → JFields
  | .nil => .nil
  | .cons k v rest => .cons (snakeKeyOf k) (convertCamelToSnakeCase v) (mapConvert rest)

/-- A project-marker oracle that accepts every directory. -/
def anyProject : JValue → Bool := fun _ => true

/-- A handler state with an active process of id 0 and fresh id 1. -/
def demoState : OrchState :=
  { bufs := fun _ => ⟨[], []⟩, active := some 0, killed := [], nextPid := 1 }

/-- Events delivered after the second run: two lines for the new process and
one stderr line still arriving from the old one. -/
def demoEvents : List IOEvent :=
  [IOEvent.stdout 1 "hello", IOEvent.stderr 0 "old", IOEvent.stderr 1 "oops"]

/-- A JSON.parse oracle accepting exactly the text of a one-element array. -/
def demoParse : String → Option JValue := fun s =>
  if s == "[1]" then some (JValue.arr (JElems.cons (JValue.num 1) JElems.nil))
  else none

/-- Captured stdout with a log line before the JSON payload. -/
def demoOutput : String := "log line\x0a[1]"

/-- Arguments that supply projectPath but omit scenePath. -/
def missingDemoArgs : JFields :=
  JFields.cons "projectPath" (JValue.str "/proj") JFields.nil

/-- Arguments whose projectPath is present but the empty string. -/
def emptyPathArgs : JFields :=
  JFields.cons "projectPath" (JValue.str "") JFields.nil

/-- A complete argument map for a dispatch that reaches the subprocess. -/
def stripDemoArgs : JFields :=
  JFields.cons "project_path" (JValue.str "/p")
    (JFields.cons "scenePath" (JValue.str "a.tscn") JFields.nil)

/-! ### Theorems -/

/-- C1: the claim says the token executeOperation builds for a params JSON
with an embedded single quote, parsed by a POSIX shell, reconstructs the JSON
exactly, the escaping being the close-quote/backslash-quote/reopen-quote
scheme.  The source escape (replace of a single quote by
quote-backslash-quote, without the reopening quote) does not parse back to
the original, while the scheme the specification describes does: the code
drops the reopening quote. -/
theorem executeOperation_quote_escape_breaks_shell_roundtrip :
    shUnquoted (quotedParamsToken c1Json) ≠ some c1Json.data
    ∧ shUnquoted (quotedParamsTokenPosix c1Json) = some c1Json.data := by
  decide

/-- C2 counterexample: the path "a..b" is nonempty and has no
parent-directory segment under either separator, yet validatePath rejects it,
because the source tests for ".." as a substring anywhere.  This refutes the
claim that every non-empty relative path without a parent-directory traversal
is accepted. -/
theorem validatePath_nontraversal_rejected_counterexample :
    validatePath "a..b" = false
    ∧ ¬ ("a..b" = "")
    ∧ hasParentSegment "a..b" = false := by
  decide

/-- C5 counterexample: with required parameters projectPath and scenePath and
an argument map that supplies projectPath as the empty string and omits
scenePath, the dispatch error names both parameters, not exactly the missing
one (scenePath): the source filter treats any JS-falsy supplied value as
missing. -/
theorem handleOperationTool_missing_names_counterexample :
    handleOperationTool anyProject "create_scene" emptyPathArgs
        ["projectPath", "scenePath"]
      = DispatchOutcome.errMissing ["projectPath", "scenePath"]
    ∧ (["projectPath", "scenePath"].filter
        (fun r => (emptyPathArgs.get r).isNone)) = ["scenePath"]
    ∧ ¬ (["projectPath", "scenePath"] = ["scenePath"]) := by
  decide

/-- C6 counterexample: the key custom_key is snake_case and absent from
PARAMETER_MAPPINGS; normalizeParameters leaves it unchanged (still in the
source snake_case convention) instead of applying any word-boundary fallback,
refuting the claim for the toInternal direction. -/
theorem normalizeParameters_unmapped_key_kept_counterexample :
    normalizeParameters
        (JValue.obj (JFields.cons "custom_key" (JValue.str "v") JFields.nil))
      = JValue.obj (JFields.cons "custom_key" (JValue.str "v") JFields.nil)
    ∧ hasUnderscore "custom_key" = true
    ∧ jsGet PARAMETER_MAPPINGS "custom_key" = none := by
  decide

/-- After an in-place update of an existing key, lookup finds the new value. -/
theorem jsGet_map_set {α : Type} (m : List (String × α)) (k : String) (v : α)
    (h : m.any (fun kv => kv.1 == k) = true) :
    jsGet (m.map (fun kv => if kv.1 == k then (kv.1, v) else kv)) k = some v := by
  induction m with
  | nil => simp at h
  | cons kv rest ih =>
    by_cases hk : (kv.1 == k) = true
    · simp [jsGet, hk]
    · simp only [List.any_cons, Bool.or_eq_true] at h
      rcases h with h | h
      · exact absurd h hk
      · rw [List.map_cons, if_neg hk]
        simp only [jsGet]
        rw [if_neg hk]
        exact ih h

/-- After appending a fresh key, lookup finds the new value. -/
theorem jsGet_append_fresh {α : Type} (m : List (String × α)) (k : String) (v : α)
    (h : m.any (fun kv => kv.1 == k) = false) :
    jsGet (m ++ [(k, v)]) k = some v := by
  induction m with
  | nil => simp [jsGet]
  | cons kv rest ih =>
    simp only [List.any_cons, Bool.or_eq_false_iff] at h
    simp [jsGet, h.1, ih h.2]

/-- Lookup after assignment returns the assigned value. -/
theorem jsGet_jsSet_self {α : Type} (m : List (String × α)) (k : String) (v : α) :
    jsGet (jsSet m k v) k = some v := by
  by_cases h : (m.any (fun kv => kv.1 == k)) = true
  · rw [jsSet, if_pos h]
    exact jsGet_map_set m k v h
  · rw [jsSet, if_neg h]
    exact jsGet_append_fresh m k v (Bool.not_eq_true _ ▸ eq_false_of_ne_true h)

/-- C4: two successive isValidGodotPath calls on the same path string run the
underlying existence/subprocess check at most once in total; the second call
returns exactly the value cached by the first (true or false alike) and
leaves the cache unchanged, even when the ground-truth oracles have changed
in between (the second call takes different oracles). -/
theorem isValidGodotPath_second_call_cached
    (fsExists1 runsOk1 fsExists2 runsOk2 : String → Bool)
    (p : String) (cache : List (String × Bool)) :
    (isValidGodotPath fsExists1 runsOk1 p cache).2.2
      + (isValidGodotPath fsExists2 runsOk2 p
          (isValidGodotPath fsExists1 runsOk1 p cache).2.1).2.2 ≤ 1
    ∧ (isValidGodotPath fsExists2 runsOk2 p
        (isValidGodotPath fsExists1 runsOk1 p cache).2.1).1
      = (isValidGodotPath fsExists1 runsOk1 p cache).1
    ∧ (isValidGodotPath fsExists2 runsOk2 p
        (isValidGodotPath fsExists1 runsOk1 p cache).2.1).2.1
      = (isValidGodotPath fsExists1 runsOk1 p cache).2.1 := by
  cases hc : jsGet cache p with
  | some b => simp [isValidGodotPath, hc]
  | none => simp [isValidGodotPath, hc, jsGet_jsSet_self]

/-- C9: a map holding both a snake_case table key and its camelCase
counterpart normalizes to a single binding under the camelCase key whose
value comes from whichever of the two keys is enumerated later (values that
are themselves maps are normalized recursively; all other values are kept
verbatim); the earlier value is dropped, so normalization is not injective. -/
theorem normalizeParameters_merges_snake_and_camel (s c : String) (a b : JValue)
    (hmap : jsGet PARAMETER_MAPPINGS s = some c)
    (hus : hasUnderscore s = true)
    (huc : hasUnderscore c = false)
    (_hne : ¬ (s = c)) :
    normalizeParameters
        (JValue.obj (JFields.cons s a (JFields.cons c b JFields.nil)))
      = JValue.obj (JFields.cons c (normalizeParameters b) JFields.nil)
    ∧ normalizeParameters
        (JValue.obj (JFields.cons c b (JFields.cons s a JFields.nil)))
      = JValue.obj (JFields.cons c (normalizeParameters a) JFields.nil)
    ∧ normalizeParameters
        (JValue.obj (JFields.cons s a (JFields.cons c b JFields.nil)))
      = normalizeParameters (JValue.obj (JFields.cons c b JFields.nil))
    ∧ ¬ (JValue.obj (JFields.cons s a (JFields.cons c b JFields.nil))
        = JValue.obj (JFields.cons c b JFields.nil)) := by
  have hkey : normalizeKey s = c := by simp [normalizeKey, hmap, hus]
  have hkeyc : normalizeKey c = c := by simp [normalizeKey, huc]
  refine ⟨?_, ?_, ?_, ?_⟩
  · simp [normalizeParameters, normalizeFields, JFields.set, JFields.hasKey,
      JFields.setVal, JFields.append, hkey, hkeyc]
  · simp [normalizeParameters, normalizeFields, JFields.set, JFields.hasKey,
      JFields.setVal, JFields.append, hkey, hkeyc]
  · simp [normalizeParameters, normalizeFields, JFields.set, JFields.hasKey,
      JFields.setVal, JFields.append, hkey, hkeyc]
  · simp

/-- Concrete instance of the duplicate-key merge: with project_path first and
projectPath second, the later (camelCase) value wins. -/
theorem normalizeParameters_merges_snake_and_camel_witness :
    normalizeParameters
        (JValue.obj (JFields.cons "project_path" (JValue.str "A")
          (JFields.cons "projectPath" (JValue.str "B") JFields.nil)))
      = JValue.obj (JFields.cons "projectPath" (JValue.str "B") JFields.nil) := by
  have h := normalizeParameters_merges_snake_and_camel "project_path" "projectPath"
    (JValue.str "A") (JValue.str "B") (by decide) (by decide) (by decide) (by decide)
  exact h.1.trans (by decide)

/-- While a process stays active (no exit notification for it arrives), the
buffers the handler reports are its buffers at the start extended by exactly
the lines the events deliver to that process, in order. -/
theorem getOutput_after_events (p : Nat) (evs : List IOEvent) :
    ∀ (s : OrchState), s.active = some p → IOEvent.exited p ∉ evs →
      getOutput (applyEvents s evs)
        = some ⟨(s.bufs p).output ++ outLinesFor p evs,
                (s.bufs p).errors ++ errLinesFor p evs⟩ := by
  induction evs with
  | nil =>
    intro s ha _
    simp [applyEvents, getOutput, ha, outLinesFor, errLinesFor]
  | cons ev rest ih =>
    intro s ha hx
    have hx' : IOEvent.exited p ∉ rest := fun hm => hx (List.mem_cons_of_mem _ hm)
    cases ev with
    | stdout q l =>
      have h := ih (applyEvent s (IOEvent.stdout q l)) (by simp [applyEvent, ha]) hx'
      rw [applyEvents, h]
      by_cases hq : p = q
      · subst hq
        simp [applyEvent, outLinesFor, errLinesFor]
      · have hq2 : ¬ (q = p) := fun h2 => hq h2.symm
        simp [applyEvent, outLinesFor, errLinesFor, hq, hq2]
    | stderr q l =>
      have h := ih (applyEvent s (IOEvent.stderr q l)) (by simp [applyEvent, ha]) hx'
      rw [applyEvents, h]
      by_cases hq : p = q
      · subst hq
        simp [applyEvent, outLinesFor, errLinesFor]
      · have hq2 : ¬ (q = p) := fun h2 => hq h2.symm
        simp [applyEvent, outLinesFor, errLinesFor, hq, hq2]
    | exited q =>
      have hq : ¬ (p = q) := fun h2 => hx (by rw [h2]; exact List.mem_cons_self _ _)
      have hstep : applyEvent s (IOEvent.exited q) = s := by
        simp [applyEvent, ha, Option.some.injEq, hq]
      rw [applyEvents, hstep]
      rw [ih s ha hx']
      simp [outLinesFor, errLinesFor]

/-- C3: starting a second supervised run while one is active puts the first
process id into the killed set before the fresh process (with empty buffers)
is recorded as the single active one, and a later handleGetDebugOutput
reports exactly the lines delivered to the second process, none from the
first.  The active slot being an Option, at most one process is tracked at
any time by construction. -/
theorem handleRunProject_second_run (s0 : OrchState) (p1 : Nat)
    (ha : s0.active = some p1) (evs : List IOEvent)
    (hx : IOEvent.exited s0.nextPid ∉ evs) :
    p1 ∈ (runProject s0).killed
    ∧ (runProject s0).active = some s0.nextPid
    ∧ getOutput (applyEvents (runProject s0) evs)
        = some ⟨outLinesFor s0.nextPid evs, errLinesFor s0.nextPid evs⟩ := by
  refine ⟨?_, rfl, ?_⟩
  · simp [runProject, ha]
  · have h := getOutput_after_events s0.nextPid evs (runProject s0) rfl hx
    rw [h]
    simp [runProject]

/-- Concrete second run: process 0 is active, the second run kills it and
records process 1; after interleaved events the debug output holds only the
lines of process 1. -/
theorem handleRunProject_second_run_witness :
    0 ∈ (runProject demoState).killed
    ∧ (runProject demoState).active = some 1
    ∧ getOutput (applyEvents (runProject demoState) demoEvents)
        = some ⟨["hello"], ["oops"]⟩ := by
  have h := handleRunProject_second_run demoState 0 rfl demoEvents (by decide)
  exact ⟨h.1, h.2.1, h.2.2.trans (by decide)⟩

/-- C5 amended: whenever at least one required parameter is absent or
JS-falsy in the normalized arguments, dispatch returns the missing-parameters
validation error naming exactly the required parameters whose value is absent
or JS-falsy (hence exactly the absent ones whenever every supplied required
value is truthy), and no subprocess is invoked. -/
theorem handleOperationTool_missing_params (projectValid : JValue → Bool)
    (operation : String) (rawArgs : JFields) (required : List String)
    (h : ¬ (required.filter
        (fun r => jsFalsyOpt ((normalizeFields rawArgs JFields.nil).get r)) = [])) :
    handleOperationTool projectValid operation rawArgs required
      = DispatchOutcome.errMissing (required.filter
          (fun r => jsFalsyOpt ((normalizeFields rawArgs JFields.nil).get r)))
    ∧ subprocessInvoked
        (handleOperationTool projectValid operation rawArgs required) = false := by
  constructor
  · simp only [handleOperationTool]
    rw [if_neg h]
  · simp only [handleOperationTool]
    rw [if_neg h]
    rfl

/-- Concrete missing-parameter dispatch: projectPath supplied and truthy,
scenePath absent; the error names exactly scenePath and nothing runs. -/
theorem handleOperationTool_missing_params_witness :
    handleOperationTool anyProject "create_scene" missingDemoArgs
        ["projectPath", "scenePath"]
      = DispatchOutcome.errMissing ["scenePath"]
    ∧ subprocessInvoked (handleOperationTool anyProject "create_scene"
        missingDemoArgs ["projectPath", "scenePath"]) = false := by
  have h := handleOperationTool_missing_params anyProject "create_scene"
    missingDemoArgs ["projectPath", "scenePath"] (by decide)
  exact ⟨h.1.trans (by decide), h.2⟩

/-- An object with the projectPath binding removed has no projectPath key. -/
theorem eraseProjectPath_no_key : ∀ (fs : JFields),
    (eraseProjectPath fs).get "projectPath" = none
  | JFields.nil => by simp [eraseProjectPath, JFields.get]
  | JFields.cons k v rest => by
    by_cases hk : (k == "projectPath") = true
    · simp [eraseProjectPath, hk, eraseProjectPath_no_key rest]
    · simp [eraseProjectPath, hk, JFields.get, eraseProjectPath_no_key rest]

/-- C10: whenever dispatch reaches the subprocess invocation, the parameter
map handed to executeOperation is exactly the normalized argument map with
the projectPath binding removed (every other binding forwarded unchanged, in
order), the separately-passed project path is the normalized projectPath
value, and the forwarded map carries no projectPath key. -/
theorem handleOperationTool_strips_projectPath (projectValid : JValue → Bool)
    (operation : String) (rawArgs : JFields) (required : List String)
    (op2 : String) (params : JFields) (pp : Option JValue)
    (h : handleOperationTool projectValid operation rawArgs required
        = DispatchOutcome.runOp op2 params pp) :
    params = eraseProjectPath (normalizeFields rawArgs JFields.nil)
    ∧ pp = (normalizeFields rawArgs JFields.nil).get "projectPath"
    ∧ params.get "projectPath" = none := by
  simp only [handleOperationTool] at h
  split at h
  · split at h
    · split at h
      · rename_i pv hpp
        split at h
        · exact absurd h (by simp)
        · injection h with h1 h2 h3
          refine ⟨h2.symm, ?_, ?_⟩
          · rw [← h3, hpp]
          · rw [← h2]
            exact eraseProjectPath_no_key _
      · rename_i hpp
        injection h with h1 h2 h3
        refine ⟨h2.symm, ?_, ?_⟩
        · rw [← h3, hpp]
        · rw [← h2]
          exact eraseProjectPath_no_key _
    · exact absurd h (by simp)
  · exact absurd h (by simp)

/-- Concrete successful dispatch: the forwarded parameter map is the
normalized arguments minus projectPath, and contains no projectPath key. -/
theorem handleOperationTool_strips_projectPath_witness :
    JFields.cons "scenePath" (JValue.str "a.tscn") JFields.nil
        = eraseProjectPath (normalizeFields stripDemoArgs JFields.nil)
    ∧ some (JValue.str "/p")
        = (normalizeFields stripDemoArgs JFields.nil).get "projectPath"
    ∧ (JFields.cons "scenePath" (JValue.str "a.tscn") JFields.nil).get
        "projectPath" = none :=
  handleOperationTool_strips_projectPath anyProject "save_scene" stripDemoArgs
    ["projectPath", "scenePath"] "save_scene"
    (JFields.cons "scenePath" (JValue.str "a.tscn") JFields.nil)
    (some (JValue.str "/p")) (by decide)

/-- A list is a Boolean prefix of itself followed by anything. -/
theorem isPrefixOf_self_append : ∀ (xs ys : List Char), xs.isPrefixOf (xs ++ ys) = true
  | [], _ => by simp [List.isPrefixOf]
  | x :: xs, ys => by simp [List.isPrefixOf, isPrefixOf_self_append xs ys]

/-- The empty pattern occurs in every text. -/
theorem containsSeq_nil : ∀ (cs : List Char), containsSeq [] cs = true
  | [] => by simp [containsSeq]
  | _ :: rest => by simp [containsSeq, List.isPrefixOf]

/-- Any explicit occurrence of the pattern makes containsSeq true. -/
theorem containsSeq_of_parts (pat : List Char) :
    ∀ (l r : List Char), containsSeq pat (l ++ (pat ++ r)) = true
  | [], r => by
    cases pat with
    | nil => simpa using containsSeq_nil r
    | cons p ps => simp [containsSeq, isPrefixOf_self_append]
  | c :: l, r => by
    simp [containsSeq, containsSeq_of_parts pat l r]

/-- splitSeps always returns at least one segment. -/
theorem splitSeps_ne_nil : ∀ (cs : List Char), ¬ (splitSeps cs = [])
  | [] => by simp [splitSeps]
  | c :: rest => by
    by_cases hc : (c == '/' || c == bslashChar) = true
    · simp [splitSeps, hc]
    · cases h : splitSeps rest with
      | nil => simp [splitSeps, hc, h]
      | cons s ss => simp [splitSeps, hc, h]

/-- The first segment of splitSeps is a prefix of the text. -/
theorem splitSeps_head_start :
    ∀ (cs : List Char) (s : List Char) (ss : List (List Char)),
      splitSeps cs = s :: ss → ∃ r, cs = s ++ r
  | [], s, ss => by
    intro h
    simp only [splitSeps] at h
    injection h with h1 _
    exact ⟨[], by rw [← h1]; rfl⟩
  | c :: rest, s, ss => by
    intro h
    by_cases hc : (c == '/' || c == bslashChar) = true
    · rw [splitSeps, if_pos hc] at h
      injection h with h1 _
      exact ⟨c :: rest, by rw [← h1]; rfl⟩
    · rw [splitSeps, if_neg hc] at h
      cases hr : splitSeps rest with
      | nil => exact absurd hr (splitSeps_ne_nil rest)
      | cons t ts =>
        rw [hr] at h
        injection h with h1 _
        obtain ⟨r, hrec⟩ := splitSeps_head_start rest t ts hr
        exact ⟨r, by rw [← h1, hrec]; rfl⟩

/-- Every segment splitSeps returns occurs contiguously in the text. -/
theorem splitSeps_mem_parts :
    ∀ (cs : List Char) (s : List Char), s ∈ splitSeps cs →
      ∃ l r, cs = l ++ (s ++ r)
  | [], s => by
    intro h
    simp only [splitSeps, List.mem_singleton] at h
    subst h
    exact ⟨[], [], rfl⟩
  | c :: rest, s => by
    intro h
    by_cases hc : (c == '/' || c == bslashChar) = true
    · rw [splitSeps, if_pos hc] at h
      rcases List.mem_cons.mp h with h1 | h1
      · subst h1
        exact ⟨[], c :: rest, rfl⟩
      · obtain ⟨l, r, hlr⟩ := splitSeps_mem_parts rest s h1
        exact ⟨c :: l, r, by rw [hlr]; rfl⟩
    · rw [splitSeps, if_neg hc] at h
      cases hr : splitSeps rest with
      | nil => exact absurd hr (splitSeps_ne_nil rest)
      | cons t ts =>
        rw [hr] at h
        rcases List.mem_cons.mp h with h1 | h1
        · obtain ⟨r, hrec⟩ := splitSeps_head_start rest t ts hr
          exact ⟨[], r, by rw [h1, hrec]; rfl⟩
        · have hmem : s ∈ splitSeps rest := by
            rw [hr]; exact List.mem_cons_of_mem _ h1
          obtain ⟨l, r, hlr⟩ := splitSeps_mem_parts rest s hmem
          exact ⟨c :: l, r, by rw [hlr]; rfl⟩

/-- C2 amended: validatePath accepts every nonempty path whose text nowhere
contains two consecutive dots, and rejects every path with a
parent-directory ".." segment under either separator (the source test being
the strictly stronger substring check, which also rejects paths such as
"a..b" that have no traversal segment). -/
theorem validatePath_dotdot_characterization (p : String) :
    (¬ (p = "") → containsSeq dotdot p.data = false → validatePath p = true)
    ∧ (hasParentSegment p = true → validatePath p = false) := by
  constructor
  · intro h1 h2
    have hb : (p == "") = false := by
      rw [beq_eq_false_iff_ne]
      exact h1
    simp [validatePath, hb, h2]
  · intro h
    rw [hasParentSegment, List.any_eq_true] at h
    obtain ⟨s, hmem, hbeq⟩ := h
    have hs : s = dotdot := eq_of_beq hbeq
    subst hs
    obtain ⟨l, r, hlr⟩ := splitSeps_mem_parts p.data dotdot hmem
    have hc : containsSeq dotdot p.data = true := by
      rw [hlr]
      exact containsSeq_of_parts dotdot l r
    simp [validatePath, hc]

/-- Concrete path validation: a benign relative path is accepted and a
traversal path is rejected. -/
theorem validatePath_dotdot_characterization_witness :
    validatePath "scenes/main.tscn" = true ∧ validatePath "a/../b" = false :=
  ⟨(validatePath_dotdot_characterization "scenes/main.tscn").1 (by decide) (by decide),
   (validatePath_dotdot_characterization "a/../b").2 (by decide)⟩

/-- C6 amended: in the toExternal direction every key absent from the
reverse table is converted by the deterministic word-boundary fallback; in
the toInternal direction keys absent from the table are left unchanged;
neither direction can fail on an unmapped key. -/
theorem unmapped_key_conversion (k : String) :
    (jsGet PARAMETER_MAPPINGS k = none → normalizeKey k = k)
    ∧ (jsGet reverseParameterMappings k = none → snakeKeyOf k = camelFallback k) := by
  constructor
  · intro h
    simp [normalizeKey, h]
  · intro h
    simp [snakeKeyOf, h]

/-- Concrete unmapped key: customKey passes through toInternal unchanged and
toExternal converts it algorithmically to custom_key. -/
theorem unmapped_key_conversion_witness :
    normalizeKey "customKey" = "customKey"
    ∧ snakeKeyOf "customKey" = "custom_key" := by
  have h := unmapped_key_conversion "customKey"
  exact ⟨h.1 (by decide), (h.2 (by decide)).trans (by decide)⟩

/-- When the parse oracle rejects every line, the backward scan finds none. -/
theorem scanBack_none (parse : String → Option JValue) :
    ∀ (ls : List String), (∀ l ∈ ls, parse l = none) → scanBack parse ls = none := by
  intro ls
  induction ls with
  | nil => intro _; rfl
  | cons l rest ih =>
    intro h
    have hr := ih (fun x hx => h x (List.mem_cons_of_mem _ hx))
    simp [scanBack, hr, h l (List.mem_cons_self _ _)]

/-- The backward scan prefers any hit in the later part of the line list. -/
theorem scanBack_append (parse : String → Option JValue) (as bs : List String) :
    scanBack parse (as ++ bs)
      = match scanBack parse bs with
        | some j => some j
        | none => scanBack parse as := by
  induction as with
  | nil =>
    cases hb : scanBack parse bs <;> simp [scanBack, hb]
  | cons a as ih =>
    simp only [List.cons_append, scanBack, List.append_eq]
    rw [ih]
    cases hb : scanBack parse bs <;> cases ha : scanBack parse as <;>
      simp [hb, ha]

/-- C8: the JSON extraction scans the cleaned stdout lines from the last
line backward.  Whenever the cleaned lines split as an arbitrary prefix, a
payload line the parse oracle accepts, and a suffix the oracle rejects, the
extraction returns exactly that parse, so any number of non-JSON log lines
before the payload are tolerated; and when no line parses, it reports an
extraction error, whose type is distinct from the execution-failure
classification taken from stderr. -/
theorem extractJsonFromOutput_backward_scan (parse : String → Option JValue)
    (output : String) :
    (∀ (pre : List String) (payload : String) (post : List String) (j : JValue),
        cleanLines output = pre ++ (payload :: post) →
        parse payload = some j →
        (∀ l ∈ post, parse l = none) →
        extractJsonFromOutput parse output = ExtractResult.ok j)
    ∧ ((∀ l ∈ cleanLines output, parse l = none) →
        ∃ e : ExtractErr,
          extractJsonFromOutput parse output = ExtractResult.error e) := by
  constructor
  · intro pre payload post j hsplit hpay hpost
    have hne : ¬ ((jsTrim output == "") = true) := by
      intro hb
      have he : jsTrim output = "" := eq_of_beq hb
      have hcl : cleanLines output = [] := by
        rw [cleanLines, he]
        decide
      rw [hcl] at hsplit
      rcases List.append_eq_nil.mp hsplit.symm with ⟨_, h2⟩
      exact absurd h2 (by simp)
    rw [extractJsonFromOutput, if_neg hne, hsplit, scanBack_append]
    have hpostn : scanBack parse post = none := scanBack_none parse post hpost
    simp [scanBack, hpostn, hpay]
  · intro h
    by_cases ht : (jsTrim output == "") = true
    · exact ⟨ExtractErr.noContent, by rw [extractJsonFromOutput, if_pos ht]⟩
    · refine ⟨ExtractErr.unparsable, ?_⟩
      rw [extractJsonFromOutput, if_neg ht, scanBack_none parse _ h]

/-- Concrete extraction: a log line precedes the JSON payload line and the
payload is still returned. -/
theorem extractJsonFromOutput_backward_scan_witness :
    extractJsonFromOutput demoParse demoOutput
      = ExtractResult.ok (JValue.arr (JElems.cons (JValue.num 1) JElems.nil)) :=
  (extractJsonFromOutput_backward_scan demoParse demoOutput).1
    ["log line"] "[1]" [] (JValue.arr (JElems.cons (JValue.num 1) JElems.nil))
    (by decide) (by decide) (by simp)

/-- Appending the empty field list is the identity. -/
theorem JFields.append_nil : ∀ (fs : JFields), fs.append JFields.nil = fs
  | JFields.nil => rfl
  | JFields.cons k v rest => by
    simp [JFields.append, JFields.append_nil rest]

/-- Field-list append is associative. -/
theorem JFields.append_assoc : ∀ (a b c : JFields),
    (a.append b).append c = a.append (b.append c)
  | JFields.nil, _, _ => rfl
  | JFields.cons k v rest, b, c => by
    simp [JFields.append, JFields.append_assoc rest b c]

/-- Keys of an appended field list. -/
theorem JFields.keys_append : ∀ (fs gs : JFields),
    (fs.append gs).keys = fs.keys ++ gs.keys
  | JFields.nil, _ => rfl
  | JFields.cons k v rest, gs => by
    simp [JFields.append, JFields.keys, JFields.keys_append rest gs]

/-- An object has a key exactly when the key is among its keys. -/
theorem JFields.hasKey_iff_mem : ∀ (fs : JFields) (key : String),
    fs.hasKey key = true ↔ key ∈ fs.keys
  | JFields.nil, key => by simp [JFields.hasKey, JFields.keys]
  | JFields.cons k v rest, key => by
    simp [JFields.hasKey, JFields.keys, JFields.hasKey_iff_mem rest key,
      Bool.or_eq_true, eq_comm (a := k) (b := key)]

/-- Assigning a key the object does not yet have appends the binding. -/
theorem JFields.set_fresh (fs : JFields) (key : String) (v : JValue)
    (h : key ∉ fs.keys) :
    fs.set key v = fs.append (JFields.cons key v JFields.nil) := by
  have hk : fs.hasKey key = false := by
    rw [← Bool.not_eq_true, JFields.hasKey_iff_mem]
    exact h
  simp [JFields.set, hk]

/-- Keys of the pointwise-normalized field list. -/
theorem mapNormalize_keys : ∀ (fs : JFields),
    (mapNormalize fs).keys = fs.keys.map normalizeKey
  | JFields.nil => rfl
  | JFields.cons k v rest => by
    simp [mapNormalize, JFields.keys, mapNormalize_keys rest]

/-- The Boolean key-distinctness test coincides with list Nodup. -/
theorem nodupKeys_iff : ∀ (l : List String), nodupKeys l = true ↔ l.Nodup
  | [] => by simp [nodupKeys]
  | k :: rest => by
    simp [nodupKeys, nodupKeys_iff rest, List.nodup_cons, List.elem_iff]

/-- Every table key round-trips: looking the normalized key up in the
reverse table recovers the original key (checked over the whole table). -/
theorem mapping_keys_round :
    (PARAMETER_MAPPINGS.map Prod.fst).all
      (fun k => jsGet reverseParameterMappings (normalizeKey k) == some k) = true := by
  decide

/-- A successful record lookup means the key is among the record keys. -/
theorem jsGet_isSome_mem {α : Type} : ∀ (m : List (String × α)) (k : String),
    (jsGet m k).isSome = true → k ∈ m.map Prod.fst
  | [], k => by simp [jsGet]
  | kv :: rest, k => by
    by_cases hk : (kv.1 == k) = true
    · intro _
      exact List.mem_cons.mpr (Or.inl (eq_of_beq hk).symm)
    · intro h
      rw [jsGet, if_neg hk] at h
      exact List.mem_cons_of_mem _ (jsGet_isSome_mem rest k h)

/-- On keys of the table, converting the normalized key back yields the
original key. -/
theorem snakeKeyOf_normalizeKey (k : String)
    (h : (jsGet PARAMETER_MAPPINGS k).isSome = true) :
    snakeKeyOf (normalizeKey k) = k := by
  have hmem : k ∈ PARAMETER_MAPPINGS.map Prod.fst := jsGet_isSome_mem _ k h
  have hall := List.all_eq_true.mp mapping_keys_round k hmem
  have hget : jsGet reverseParameterMappings (normalizeKey k) = some k :=
    eq_of_beq hall
  rw [snakeKeyOf, hget]

/-- normalizeKey is injective on the keys of the table. -/
theorem normalizeKey_inj_on_mapped (k1 k2 : String)
    (h1 : (jsGet PARAMETER_MAPPINGS k1).isSome = true)
    (h2 : (jsGet PARAMETER_MAPPINGS k2).isSome = true)
    (he : normalizeKey k1 = normalizeKey k2) : k1 = k2 := by
  have e1 := snakeKeyOf_normalizeKey k1 h1
  have e2 := snakeKeyOf_normalizeKey k2 h2
  rw [← e1, ← e2, he]

/-- In a good field list every key is a key of the table. -/
theorem goodFields_keys_mapped : ∀ (fs : JFields), goodFields fs = true →
    ∀ k ∈ fs.keys, (jsGet PARAMETER_MAPPINGS k).isSome = true
  | JFields.nil => by
    intro _ k hk
    simp [JFields.keys] at hk
  | JFields.cons k0 v rest => by
    intro h k hk
    simp only [goodFields, Bool.and_eq_true] at h
    rcases h with ⟨⟨hm, _⟩, hr⟩
    rcases List.mem_cons.mp hk with h1 | h1
    · exact h1 ▸ hm
    · exact goodFields_keys_mapped rest hr k h1

/-- Keys of the pointwise-converted field list. -/
theorem mapConvert_keys : ∀ (fs : JFields),
    (mapConvert fs).keys = fs.keys.map snakeKeyOf
  | JFields.nil => rfl
  | JFields.cons k v rest => by
    simp [mapConvert, JFields.keys, mapConvert_keys rest]

/-- When the normalized keys collide neither with each other nor with the
accumulator keys, the field loop of normalizeParameters appends the
pointwise map to the accumulator. -/
theorem normalizeFields_append : ∀ (fs : JFields) (acc : JFields),
    (acc.keys ++ (mapNormalize fs).keys).Nodup →
    normalizeFields fs acc = acc.append (mapNormalize fs)
  | JFields.nil, acc => by
    intro _
    simp [normalizeFields, mapNormalize, JFields.append_nil]
  | JFields.cons k v rest, acc => by
    intro h
    simp only [mapNormalize, JFields.keys] at h
    have hdis := List.disjoint_of_nodup_append h
    have hnotmem : normalizeKey k ∉ acc.keys := fun hmem =>
      hdis hmem (List.mem_cons_self _ _)
    have hset := JFields.set_fresh acc (normalizeKey k) (normalizeParameters v) hnotmem
    rw [normalizeFields, hset,
      normalizeFields_append rest _ (by
        simpa [JFields.keys_append, JFields.keys, List.append_assoc] using h),
      JFields.append_assoc]
    simp [JFields.append, mapNormalize]

/-- The convertCamelToSnakeCase analogue of normalizeFields_append. -/
theorem convertFields_append : ∀ (fs : JFields) (acc : JFields),
    (acc.keys ++ (mapConvert fs).keys).Nodup →
    convertFields fs acc = acc.append (mapConvert fs)
  | JFields.nil, acc => by
    intro _
    simp [convertFields, mapConvert, JFields.append_nil]
  | JFields.cons k v rest, acc => by
    intro h
    simp only [mapConvert, JFields.keys] at h
    have hdis := List.disjoint_of_nodup_append h
    have hnotmem : snakeKeyOf k ∉ acc.keys := fun hmem =>
      hdis hmem (List.mem_cons_self _ _)
    have hset := JFields.set_fresh acc (snakeKeyOf k) (convertCamelToSnakeCase v) hnotmem
    rw [convertFields, hset,
      convertFields_append rest _ (by
        simpa [JFields.keys_append, JFields.keys, List.append_assoc] using h),
      JFields.append_assoc]
    simp [JFields.append, mapConvert]

mutual
/-- Round trip of a single good value through normalization and conversion. -/
theorem roundtrip_value : ∀ (v : JValue), goodParams v = true →
    convertCamelToSnakeCase (normalizeParameters v) = v
  | JValue.str _, _ => rfl
  | JValue.num _, _ => rfl
  | JValue.bool _, _ => rfl
  | JValue.null, _ => rfl
  | JValue.arr _, _ => rfl
  | JValue.obj fs, h => by
    simp only [goodParams, Bool.and_eq_true] at h
    rcases h with ⟨hnd, hgf⟩
    have hnd2 : fs.keys.Nodup := (nodupKeys_iff fs.keys).mp hnd
    have hmapped := goodFields_keys_mapped fs hgf
    have hndn : ((mapNormalize fs).keys).Nodup := by
      rw [mapNormalize_keys]
      exact hnd2.map_on (fun x hx y hy hxy =>
        normalizeKey_inj_on_mapped x y (hmapped x hx) (hmapped y hy) hxy)
    have h1 : normalizeFields fs JFields.nil = mapNormalize fs := by
      have ha := normalizeFields_append fs JFields.nil
        (by simpa [JFields.keys] using hndn)
      simpa [JFields.append] using ha
    have hrt : mapConvert (mapNormalize fs) = fs := roundtrip_fields fs hgf
    have hndc : ((mapConvert (mapNormalize fs)).keys).Nodup := by
      rw [hrt]
      exact hnd2
    have h2 : convertFields (mapNormalize fs) JFields.nil
        = mapConvert (mapNormalize fs) := by
      have ha := convertFields_append (mapNormalize fs) JFields.nil
        (by simpa [JFields.keys] using hndc)
      simpa [JFields.append] using ha
    simp only [normalizeParameters]
    rw [h1]
    simp only [convertCamelToSnakeCase]
    rw [h2, hrt]

/-- Round trip of a good field list, pointwise. -/
theorem roundtrip_fields : ∀ (fs : JFields), goodFields fs = true →
    mapConvert (mapNormalize fs) = fs
  | JFields.nil, _ => rfl
  | JFields.cons k v rest, h => by
    simp only [goodFields, Bool.and_eq_true] at h
    rcases h with ⟨⟨hm, hv⟩, hr⟩
    simp only [mapNormalize, mapConvert]
    rw [snakeKeyOf_normalizeKey k hm, roundtrip_value v hv, roundtrip_fields rest hr]
end

/-- C7: for every parameter map all of whose keys, at every object level,
are keys of the mapping table (and no key repeats inside one object, as in
any JS object), converting back to snake_case after normalization is the
identity: toExternal composed with toInternal returns the original map. -/
theorem convert_normalize_roundtrip (p : JValue) (h : goodParams p = true) :
    convertCamelToSnakeCase (normalizeParameters p) = p :=
  roundtrip_value p h

/-- Concrete round trip over a nested table-keyed map. -/
theorem convert_normalize_roundtrip_witness :
    convertCamelToSnakeCase (normalizeParameters (JValue.obj
        (JFields.cons "project_path" (JValue.str "/x")
          (JFields.cons "node_type" (JValue.str "Sprite")
            (JFields.cons "scene"
              (JValue.obj (JFields.cons "node_path" (JValue.str "a") JFields.nil))
              JFields.nil)))))
      = JValue.obj
        (JFields.cons "project_path" (JValue.str "/x")
          (JFields.cons "node_type" (JValue.str "Sprite")
            (JFields.cons "scene"
              (JValue.obj (JFields.cons "node_path" (JValue.str "a") JFields.nil))
              JFields.nil))) :=
  convert_normalize_roundtrip _ (by decide)
